import Mathlib

/-!
Shallow embedding of the RyDrive file-storage server (src/rydrive.py).

Python byte strings and text strings are both modelled as `List Char`
(one `Char` per byte; every protocol-relevant byte is ASCII).
Filesystem paths are lists of path segments.  The model has no symlinks:
`Path.resolve()` and the path walk performed by the kernel during
`open`/`mkdir`/`unlink` amount to lexical normalisation of `..` segments.
-/

set_option maxRecDepth 100000

namespace RyDrive

abbrev Str := List Char

def strLit (s : String) : Str := s.toList

/-- Python `bytes.find`/`str.find` worker: the first index `≥ i` at which
`sub` occurs, scanning left to right. -/
def findSubAux (sub : Str) : Str → Nat → Option Nat
  | [], _ => none
  | c :: rest, i =>
    if sub.isPrefixOf (c :: rest) then some i else findSubAux sub rest (i + 1)

/-- Python `a.find(sub)`: index of the first occurrence, `-1` when absent. -/
def pyFind (sub xs : Str) : Int :=
  match findSubAux sub xs 0 with
  | some i => (i : Int)
  | none => -1

/-- Python `a.find(sub, start)`. -/
def pyFindFrom (sub xs : Str) (start : Int) : Int :=
  let st : Nat := if start ≥ 0 then start.toNat else ((xs.length : Int) + start).toNat
  match findSubAux sub (xs.drop st) st with
  | some i => (i : Int)
  | none => -1

/-- Python `sub in xs` on bytes/str (substring containment). -/
def containsSub (sub : Str) : Str → Bool
  | [] => sub.isPrefixOf []
  | c :: rest => sub.isPrefixOf (c :: rest) || containsSub sub rest

/-- Python slice index normalisation (negative indices count from the end,
results are clamped to `[0, len]`). -/
def pyIdx (len : Nat) (i : Int) : Nat :=
  if i ≥ 0 then min i.toNat len else ((len : Int) + i).toNat

/-- Python `xs[a:b]`. -/
def pySlice (xs : Str) (a b : Int) : Str :=
  (xs.take (pyIdx xs.length b)).drop (pyIdx xs.length a)

/-- Python `xs[a:]`. -/
def pySliceFrom (xs : Str) (a : Int) : Str := xs.drop (pyIdx xs.length a)

/-- Python `xs[:b]`. -/
def pySliceTo (xs : Str) (b : Int) : Str := xs.take (pyIdx xs.length b)

/-- Python `bytes.split(sep)` worker for a non-empty separator `s0 :: stl`,
with explicit fuel.  The fuel is always at least the length of the input,
so the first equation is never reached with a non-empty list. -/
def splitOnAuxF (s0 : Char) (stl : Str) : Nat → Str → Str → List Str
  | 0, xs, acc => [acc ++ xs]
  | _ + 1, [], acc => [acc]
  | f + 1, c :: rest, acc =>
    if (s0 :: stl).isPrefixOf (c :: rest) then
      acc :: splitOnAuxF s0 stl f (rest.drop stl.length) []
    else
      splitOnAuxF s0 stl f rest (acc ++ [c])

/-- Python `xs.split(sep)` (non-overlapping, left to right, empty pieces
kept).  The server only ever splits on non-empty separators. -/
def pySplit (sep xs : Str) : List Str :=
  match sep with
  | [] => [xs]
  | s0 :: stl => splitOnAuxF s0 stl xs.length xs []

/-- Python `relative_path.lstrip("/")`. -/
def lstripSlash (s : Str) : Str := s.dropWhile (fun c => c == '/')

/-- `PurePath` parsing of a relative path string: split on `/`, dropping
empty segments and single dots (pathlib normalises those at parse time;
`..` segments are kept). -/
def parseRel (s : Str) : List Str :=
  (pySplit [ '/' ] s).filter (fun seg => !(seg == []) && !(seg == [ '.' ]))

def dotdot : Str := strLit ".."

/-- Lexical `..` resolution, as performed by `Path.resolve()` (and by the
kernel path walk) in a symlink-free tree; `..` at the root stays at the
root.  The accumulator holds the already-resolved prefix, reversed. -/
def normAux : List Str → List Str → List Str
  | acc, [] => acc.reverse
  | acc, s :: rest =>
    if s == dotdot then normAux (acc.drop 1) rest else normAux (s :: acc) rest

def normalize (segs : List Str) : List Str := normAux [] segs

/-- `str()` of an absolute `Path` with the given segments. -/
def renderAbs (segs : List Str) : Str :=
  if segs == [] then [ '/' ] else segs.flatMap (fun s => '/' :: s)

/-- `str()` of a root-relative path (forward-slash joined). -/
def renderRel (segs : List Str) : Str :=
  match segs with
  | [] => []
  | s :: rest => s ++ rest.flatMap (fun t => '/' :: t)

/-- Process-wide configuration: the working directory the server was
started from (an absolute, already-canonical segment list). -/
structure Config where
  cwd : List Str
  deriving DecidableEq

/-- `DATA_DIR = "rydrive_data"` (src/rydrive.py:17). -/
def DATA_DIR : Str := strLit "rydrive_data"

/-- `Path(DATA_DIR).resolve()`: the canonical storage root. -/
def rootResolved (cfg : Config) : List Str := normalize (cfg.cwd ++ parseRel DATA_DIR)

/-- The Python exception classes the handlers can raise. -/
inductive PyErr where
  | valueError
  | fileNotFound
  | isADirectory
  | fileExists
  | indexError
  deriving DecidableEq

/-- `RyDriveHandler._get_full_path` (src/rydrive.py:29-37): strip leading
slashes, join onto `DATA_DIR`, resolve, and accept iff `str(full_path)`
starts with `str(data_dir_resolved)` — a plain *string*-prefix test. -/
def getFullPath (cfg : Config) (relativePath : Str) : Except PyErr (List Str) :=
  let fullPath := normalize (cfg.cwd ++ parseRel DATA_DIR ++ parseRel (lstripSlash relativePath))
  let dataDirResolved := rootResolved cfg
  if (renderAbs dataDirResolved).isPrefixOf (renderAbs fullPath) then .ok fullPath
  else .error .valueError

/-- Segment-wise containment under the root, as the specification demands:
the root is the path itself or a proper path-prefix by whole segments. -/
def underRoot (root p : List Str) : Prop := root <+: p

instance (root p : List Str) : Decidable (underRoot root p) :=
  inferInstanceAs (Decidable (root <+: p))

deriving instance DecidableEq for Except

/-- The storage tree: the set of existing directories and a finite map
from file paths to contents.  Paths are absolute segment lists. -/
structure FS where
  dirs : List (List Str)
  files : List (List Str × Str)
  deriving DecidableEq

def FS.isDir (fs : FS) (p : List Str) : Bool := fs.dirs.contains p

def FS.getFile (fs : FS) (p : List Str) : Option Str :=
  (fs.files.find? (fun e => e.fst == p)).map (fun e => e.snd)

def FS.isFile (fs : FS) (p : List Str) : Bool := (fs.getFile p).isSome

def FS.existsPath (fs : FS) (p : List Str) : Bool := fs.isDir p || fs.isFile p

def insertDir (fs : FS) (p : List Str) : FS :=
  if fs.dirs.contains p then fs else { fs with dirs := fs.dirs ++ [p] }

def insertDirs (fs : FS) : List (List Str) → FS
  | [] => fs
  | p :: rest => insertDirs (insertDir fs p) rest

/-- `path.mkdir(parents=True, exist_ok=True)`: creates the directory and
every missing ancestor; no error when they already exist as directories,
an error when the target or an ancestor exists as a file. -/
def mkdirParents (fs : FS) (p : List Str) : Except PyErr FS :=
  if p.inits.any (fun q => fs.isFile q) then .error .fileExists
  else .ok (insertDirs fs p.inits)

/-- `open(path, "wb")` followed by a full write: fails if the target is a
directory or the parent directory does not exist; otherwise creates or
overwrites the file. -/
def writeFile (fs : FS) (p : List Str) (content : Str) : Except PyErr FS :=
  if fs.isDir p then .error .isADirectory
  else if !(fs.isDir p.dropLast) then .error .fileNotFound
  else .ok { fs with files := (fs.files.filter (fun e => !(e.fst == p))) ++ [(p, content)] }

/-- `shutil.rmtree`: removes the directory and everything beneath it. -/
def removeTree (fs : FS) (p : List Str) : FS :=
  { dirs := fs.dirs.filter (fun q => !(p.isPrefixOf q)),
    files := fs.files.filter (fun e => !(p.isPrefixOf e.fst)) }

/-- `path.unlink()` on an existing file. -/
def unlinkFile (fs : FS) (p : List Str) : FS :=
  { fs with files := fs.files.filter (fun e => !(e.fst == p)) }

/-- `base / s` (pathlib join: an absolute right operand replaces the left
one). -/
def pathJoin (base : List Str) (s : Str) : List Str :=
  if (s.headD 'x') == '/' then parseRel s else base ++ parseRel s

def crlf : Str := strLit "\r\n"

/-- The loop state of `_upload_file`'s part loop: `upload_path`,
`file_data` and `filename` (src/rydrive.py:553-555). -/
structure PartsAcc where
  uploadPath : Str
  fileData : Option Str
  filename : Option Str
  deriving DecidableEq

/-- One iteration of `_upload_file`'s part loop (src/rydrive.py:557-570).
`part.split(b"\r\n\r\n")[1]` raises `IndexError` when the part has no
double CRLF; `part.find` returns `-1` when absent and the subsequent
Python slices use that value as a negative index. -/
def processPart (acc : PartsAcc) (part : Str) : Except PyErr PartsAcc :=
  if containsSub (strLit "Content-Disposition") part then
    if containsSub (strLit "name=\"path\"") part then
      match (pySplit (crlf ++ crlf) part)[1]? with
      | none => .error .indexError
      | some piece => .ok { acc with uploadPath := (pySplit crlf piece).headD [] }
    else if containsSub (strLit "name=\"file\"") part then
      let headerEnd : Int := pyFind (crlf ++ crlf) part
      let fileData0 := pySliceFrom part (headerEnd + 4)
      let fileData :=
        if crlf.isSuffixOf fileData0 then fileData0.take (fileData0.length - 2) else fileData0
      let header := pySliceTo part headerEnd
      let filenameStart : Int := pyFind (strLit "filename=\"") header + 10
      let filenameEnd : Int := pyFindFrom (strLit "\"") header filenameStart
      let filename := pySlice header filenameStart filenameEnd
      .ok { acc with fileData := some fileData, filename := some filename }
    else .ok acc
  else .ok acc

def foldParts : PartsAcc → List Str → Except PyErr PartsAcc
  | acc, [] => .ok acc
  | acc, p :: rest =>
    match processPart acc p with
    | .error e => .error e
    | .ok acc2 => foldParts acc2 rest

/-- `content_type.split("boundary=")[1]` — `none` models the `IndexError`
raised when the parameter is missing. -/
def extractBoundary (contentType : Str) : Option Str :=
  (pySplit (strLit "boundary=") contentType)[1]?

/-- Python truthiness of `file_data` / `filename` in
`if file_data and filename:`. -/
def truthy : Option Str → Bool
  | none => false
  | some s => !(s == [])

inductive UploadOut where
  | success
  | bad400
  | err500
  | crash
  deriving DecidableEq

/-- `_upload_file` (src/rydrive.py:540-587).  `success` is
`200 {"success": true}`, `bad400` a bare 400 response, `err500` a
`500 {"error": ...}` JSON response, and `crash` an uncaught exception
escaping the handler (the body parsing happens outside any `try`, so
`IndexError` there produces no HTTP response at all). -/
def uploadFile (cfg : Config) (fs : FS) (contentType body : Str) : UploadOut × FS :=
  if !(containsSub (strLit "multipart/form-data") contentType) then (.bad400, fs)
  else
    match extractBoundary contentType with
    | none => (.crash, fs)
    | some boundary =>
      match foldParts ⟨[], none, none⟩ (pySplit (strLit "--" ++ boundary) body) with
      | .error _ => (.crash, fs)
      | .ok acc =>
        if truthy acc.fileData && truthy acc.filename then
          match getFullPath cfg acc.uploadPath with
          | .error _ => (.err500, fs)
          | .ok full =>
            match mkdirParents fs full with
            | .error _ => (.err500, fs)
            | .ok fs1 =>
              let filePath := normalize (pathJoin full (acc.filename.getD []))
              match writeFile fs1 filePath (acc.fileData.getD []) with
              | .error _ => (.err500, fs1)
              | .ok fs2 => (.success, fs2)
        else (.bad400, fs)

inductive DownloadOut where
  | ok (content : Str)
  | notFound404
  | err500
  deriving DecidableEq

/-- `_download_file` (src/rydrive.py:589-613): resolve, 404 when the path
is missing or not a regular file, otherwise stream the exact bytes. -/
def downloadFile (cfg : Config) (fs : FS) (relPath : Str) : DownloadOut :=
  match getFullPath cfg relPath with
  | .error _ => .err500
  | .ok full =>
    if !(fs.existsPath full) || !(fs.isFile full) then .notFound404
    else .ok ((fs.getFile full).getD [])

inductive CreateOut where
  | success
  | err500
  deriving DecidableEq

/-- The directory `_create_folder` will create for a given request, when
the path resolves. -/
def createTarget (cfg : Config) (path name : Str) : Option (List Str) :=
  match getFullPath cfg path with
  | .error _ => none
  | .ok full => some (normalize (pathJoin full name))

/-- `_create_folder` (src/rydrive.py:640-660): empty name raises
`ValueError` (caught, 500 JSON error); otherwise resolve the parent and
`mkdir(parents=True, exist_ok=True)` the joined path. -/
def createFolder (cfg : Config) (fs : FS) (path name : Str) : CreateOut × FS :=
  if name == [] then (.err500, fs)
  else
    match getFullPath cfg path with
    | .error _ => (.err500, fs)
    | .ok full =>
      match mkdirParents fs (normalize (pathJoin full name)) with
      | .error _ => (.err500, fs)
      | .ok fs1 => (.success, fs1)

inductive DeleteOut where
  | success
  | err500
  deriving DecidableEq

/-- `_delete_item` (src/rydrive.py:662-681): directories are removed
recursively, files unlinked; a missing path makes `unlink` raise
`FileNotFoundError`, caught and surfaced as a 500 JSON error. -/
def deleteItem (cfg : Config) (fs : FS) (path : Str) : DeleteOut × FS :=
  match getFullPath cfg path with
  | .error _ => (.err500, fs)
  | .ok full =>
    if fs.isDir full then (.success, removeTree fs full)
    else if fs.isFile full then (.success, unlinkFile fs full)
    else (.err500, fs)

/-- A pathlib path value: its anchor flag and segments. -/
structure PyPath where
  absolute : Bool
  segs : List Str
  deriving DecidableEq

def PyPath.parts (p : PyPath) : List Str :=
  (if p.absolute then [[ '/' ]] else []) ++ p.segs

/-- `PurePath.relative_to`: succeeds iff the other path's parts (anchor
included) are a prefix of this path's parts, else raises `ValueError`. -/
def relativeTo (self other : PyPath) : Option (List Str) :=
  if other.parts.isPrefixOf self.parts then some (self.parts.drop other.parts.length)
  else none

/-- Python `str` comparison, codepoint-lexicographic (used by `sorted` on
same-directory `Path` values). -/
def strLt : Str → Str → Bool
  | [], [] => false
  | [], _ :: _ => true
  | _ :: _, [] => false
  | a :: as, b :: bs => if a < b then true else if a == b then strLt as bs else false

def insertSorted (x : Str) : List Str → List Str
  | [] => [x]
  | y :: rest => if strLt x y then x :: y :: rest else y :: insertSorted x rest

def sortNames (l : List Str) : List Str := l.foldr insertSorted []

/-- The names yielded by `full_path.iterdir()`. -/
def childNames (fs : FS) (p : List Str) : List Str :=
  (fs.dirs.filterMap (fun q =>
    if p.isPrefixOf q && q.length == p.length + 1 then some (q.getD p.length []) else none)) ++
  (fs.files.filterMap (fun e =>
    if p.isPrefixOf e.fst && e.fst.length == p.length + 1 then some (e.fst.getD p.length []) else none))

/-- One item of the `/api/list` JSON reply. -/
structure Entry where
  name : Str
  isFolder : Bool
  size : Nat
  relPath : Str
  deriving DecidableEq

inductive ListOut where
  | ok (items : List Entry)
  | err500
  deriving DecidableEq

/-- The body of `_list_files`'s loop (src/rydrive.py:525-532): each item
is first made relative to the *unresolved* `Path(DATA_DIR)`; a
`ValueError` there aborts the whole request. -/
def buildEntries (fs : FS) (full : List Str) : List Str → Option (List Entry)
  | [] => some []
  | n :: rest =>
    match relativeTo ⟨true, full ++ [n]⟩ ⟨false, parseRel DATA_DIR⟩ with
    | none => none
    | some rsegs =>
      match buildEntries fs full rest with
      | none => none
      | some es =>
        some ({ name := n, isFolder := fs.isDir (full ++ [n]),
                size := if fs.isFile (full ++ [n]) then ((fs.getFile (full ++ [n])).getD []).length else 0,
                relPath := renderRel rsegs } :: es)

/-- `_list_files` (src/rydrive.py:515-538). -/
def listFiles (cfg : Config) (fs : FS) (relPath : Str) : ListOut :=
  match getFullPath cfg relPath with
  | .error _ => .err500
  | .ok full =>
    if fs.existsPath full && fs.isDir full then
      match buildEntries fs full (sortNames (childNames fs full)) with
      | none => .err500
      | some items => .ok items
    else .ok []

/-- A conforming multipart/form-data encoder (the client side), used to
state round-trip properties: one `path` field part followed by one `file`
part, CRLF delimited, closed by `--boundary--`. -/
def pathPart (p : Str) : Str :=
  crlf ++ strLit "Content-Disposition: form-data; name=\"path\"" ++ crlf ++ crlf ++ p ++ crlf

def filePart (fname content : Str) : Str :=
  crlf ++ strLit "Content-Disposition: form-data; name=\"file\"; filename=\"" ++ fname ++
    strLit "\"" ++ crlf ++ crlf ++ content ++ crlf

def encodeMultipart (boundary p fname content : Str) : Str :=
  strLit "--" ++ boundary ++ pathPart p ++ strLit "--" ++ boundary ++
    filePart fname content ++ strLit "--" ++ boundary ++ strLit "--" ++ crlf

def uploadContentType (boundary : Str) : Str :=
  strLit "multipart/form-data; boundary=" ++ boundary

/-- A fixed boundary token for concrete scenarios. -/
def bnd : Str := strLit "XBOUND"

/-- A concrete configuration: the server runs in `/home`, storage root
`/home/rydrive_data`. -/
def cfg0 : Config := ⟨[strLit "home"]⟩

def root0 : List Str := [strLit "home", strLit "rydrive_data"]

/-- A fresh storage tree: the root and its ancestors exist, no files. -/
def fs0 : FS := ⟨[[], [strLit "home"], root0], []⟩

section Lemmas

/-- `normAux` is the identity on segment lists without `..`. -/
theorem normAux_no_dotdot {l : List Str} (h : ∀ s ∈ l, s ≠ dotdot) :
    ∀ acc, normAux acc l = acc.reverse ++ l := by
  induction l with
  | nil => intro acc; simp [normAux]
  | cons s rest ih =>
    intro acc
    have hs : (s == dotdot) = false := by
      simp only [beq_eq_false_iff_ne]
      exact h s (List.mem_cons_self s rest)
    have ht : ∀ t ∈ rest, t ≠ dotdot := fun t ht => h t (List.mem_cons_of_mem s ht)
    simp [normAux, hs, ih ht, List.reverse_cons, List.append_assoc]

theorem normalize_no_dotdot {l : List Str} (h : ∀ s ∈ l, s ≠ dotdot) :
    normalize l = l := by
  simpa [normalize] using normAux_no_dotdot h []

theorem insertDir_files (fs : FS) (p : List Str) : (insertDir fs p).files = fs.files := by
  unfold insertDir
  split <;> rfl

theorem insertDirs_files (l : List (List Str)) : ∀ fs : FS, (insertDirs fs l).files = fs.files := by
  induction l with
  | nil => intro fs; rfl
  | cons p rest ih => intro fs; rw [insertDirs, ih, insertDir_files]

theorem mem_insertDir_dirs (fs : FS) (p q : List Str) :
    q ∈ (insertDir fs p).dirs ↔ q ∈ fs.dirs ∨ q = p := by
  unfold insertDir
  split
  next hc =>
    have hp : p ∈ fs.dirs := by simpa using hc
    constructor
    · exact Or.inl
    · rintro (h | rfl)
      · exact h
      · exact hp
  next => simp [List.mem_append]

theorem mem_insertDirs_dirs (l : List (List Str)) : ∀ (fs : FS) (q : List Str),
    q ∈ (insertDirs fs l).dirs ↔ q ∈ fs.dirs ∨ q ∈ l := by
  induction l with
  | nil => intro fs q; simp [insertDirs]
  | cons p rest ih =>
    intro fs q
    rw [insertDirs, ih, mem_insertDir_dirs]
    simp only [List.mem_cons]
    tauto

theorem insertDirs_eq_self (l : List (List Str)) :
    ∀ fs : FS, (∀ q ∈ l, q ∈ fs.dirs) → insertDirs fs l = fs := by
  induction l with
  | nil => intro fs _; rfl
  | cons p rest ih =>
    intro fs h
    have hp : p ∈ fs.dirs := h p (List.mem_cons_self p rest)
    have hins : insertDir fs p = fs := by
      unfold insertDir
      rw [if_pos (by simpa using hp)]
    rw [insertDirs, hins]
    exact ih fs (fun q hq => h q (List.mem_cons_of_mem p hq))

theorem isFile_of_files_eq {fs fs' : FS} (h : fs.files = fs'.files) (p : List Str) :
    fs.isFile p = fs'.isFile p := by
  unfold FS.isFile FS.getFile
  rw [h]

theorem find?_filter_keep (full q : List Str) (h : q ≠ full) (L : List (List Str × Str)) :
    (L.filter (fun e => !(e.fst == full))).find? (fun e => e.fst == q) =
      L.find? (fun e => e.fst == q) := by
  induction L with
  | nil => rfl
  | cons e rest ih =>
    by_cases he : e.fst = full
    · have h1 : (e.fst == full) = true := beq_iff_eq.mpr he
      have h2 : (e.fst == q) = false := by
        rw [beq_eq_false_iff_ne, he]
        exact fun hq => h hq.symm
      simp [List.filter_cons, h1, List.find?_cons, h2, ih]
    · have h1 : (e.fst == full) = false := beq_eq_false_iff_ne.mpr he
      by_cases hq : e.fst = q
      · have h2 : (e.fst == q) = true := beq_iff_eq.mpr hq
        simp [List.filter_cons, h1, List.find?_cons, h2]
      · have h2 : (e.fst == q) = false := beq_eq_false_iff_ne.mpr hq
        simp [List.filter_cons, h1, List.find?_cons, h2, ih]

theorem isPrefixOf_append_self (l t : Str) : l.isPrefixOf (l ++ t) = true :=
  List.isPrefixOf_iff_prefix.mpr (List.prefix_append l t)

theorem isPrefixOf_extend {a b : Str} (t : Str) (h : a.isPrefixOf b = true) :
    a.isPrefixOf (b ++ t) = true := by
  rw [List.isPrefixOf_iff_prefix] at h ⊢
  exact h.trans (List.prefix_append b t)

theorem containsSub_nil_left : ∀ ys : Str, containsSub [] ys = true
  | [] => rfl
  | _ :: _ => by simp [containsSub]

theorem containsSub_mono {sub xs : Str} (t : Str) (h : containsSub sub xs = true) :
    containsSub sub (xs ++ t) = true := by
  induction xs with
  | nil =>
    simp only [containsSub] at h
    have hsub : sub = [] := by
      rw [List.isPrefixOf_iff_prefix] at h
      exact List.prefix_nil.mp h
    subst hsub
    exact containsSub_nil_left _
  | cons c rest ih =>
    simp only [containsSub, Bool.or_eq_true] at h ⊢
    rcases h with h | h
    · left
      have h2 := isPrefixOf_extend t h
      simpa using h2
    · right
      exact ih h

theorem prefix_trim {a b c : Str} (h : a <+: b ++ c) (hl : a.length ≤ b.length) : a <+: b := by
  obtain ⟨r, hr⟩ := h
  have ha : a = (b ++ c).take a.length := by rw [← hr, List.take_left]
  rw [List.take_append_of_le_length hl] at ha
  rw [ha]
  exact List.take_prefix _ _

/-- A window that starts strictly inside `xs` and would match `sub` in
`xs ++ sub ++ rest` already matches inside `xs ++ sub`. -/
theorem isPrefixOf_drop_append_of_lt {sub xs rest : Str} {i : Nat} (hi : i < xs.length)
    (hp : sub.isPrefixOf ((xs ++ sub ++ rest).drop i) = true) :
    sub.isPrefixOf ((xs ++ sub).drop i) = true := by
  rw [List.isPrefixOf_iff_prefix] at hp ⊢
  rw [List.drop_append_of_le_length (by simp; omega)] at hp
  exact prefix_trim hp (by simp [List.length_drop]; omega)

/-- Fuel irrelevance for the split worker: any fuel at least the input
length gives the same answer. -/
theorem splitOnAuxF_fuel (s0 : Char) (stl : Str) :
    ∀ (f g : Nat) (xs acc : Str), xs.length ≤ f → xs.length ≤ g →
      splitOnAuxF s0 stl f xs acc = splitOnAuxF s0 stl g xs acc := by
  intro f
  induction f with
  | zero =>
    intro g xs acc hf _
    have hxs : xs = [] := List.length_eq_zero.mp (Nat.le_zero.mp hf)
    subst hxs
    cases g with
    | zero => rfl
    | succ g => simp [splitOnAuxF]
  | succ f ih =>
    intro g xs acc hf hg
    cases xs with
    | nil =>
      cases g with
      | zero => simp [splitOnAuxF]
      | succ g => rfl
    | cons c rest =>
      cases g with
      | zero =>
        exfalso
        simp at hg
      | succ g =>
        have hf' : rest.length ≤ f := by simp at hf; omega
        have hg' : rest.length ≤ g := by simp at hg; omega
        simp only [splitOnAuxF]
        by_cases hp : ((s0 :: stl).isPrefixOf (c :: rest)) = true
        · rw [if_pos hp, if_pos hp]
          exact congrArg (List.cons acc)
            (ih g (rest.drop stl.length) []
              (le_trans (by simp) hf')
              (le_trans (by simp) hg'))
        · rw [if_neg hp, if_neg hp]
          exact ih g rest (acc ++ [c]) hf' hg'

/-- Splitting walks over `xs` (no separator occurrence starting inside it),
emits `acc ++ xs`, consumes the separator and goes on. -/
theorem splitOnAuxF_append (s0 : Char) (stl : Str) :
    ∀ (xs rest acc : Str) (f : Nat),
      (xs ++ (s0 :: stl) ++ rest).length ≤ f →
      (∀ i, i < xs.length → ¬ (s0 :: stl).isPrefixOf ((xs ++ (s0 :: stl) ++ rest).drop i) = true) →
      splitOnAuxF s0 stl f (xs ++ (s0 :: stl) ++ rest) acc =
        (acc ++ xs) :: splitOnAuxF s0 stl rest.length rest [] := by
  intro xs
  induction xs with
  | nil =>
    intro rest acc f hf _
    simp only [List.nil_append] at hf ⊢
    cases f with
    | zero => simp at hf
    | succ f =>
      have hshape : (s0 :: stl) ++ rest = s0 :: (stl ++ rest) := rfl
      rw [hshape]
      simp only [splitOnAuxF]
      rw [if_pos (show (s0 :: stl).isPrefixOf (s0 :: (stl ++ rest)) = true from isPrefixOf_append_self (s0 :: stl) rest)]
      rw [List.drop_left]
      rw [List.append_nil]
      exact congrArg (List.cons acc)
        (splitOnAuxF_fuel s0 stl f rest.length rest [] (by simp at hf; omega) (le_refl _))
  | cons x xs ih =>
    intro rest acc f hf h
    have h0 := h 0 (by simp)
    cases f with
    | zero => simp at hf
    | succ f =>
      simp only [List.cons_append, List.drop_zero] at h0
      show splitOnAuxF s0 stl (f + 1) (x :: (xs ++ (s0 :: stl) ++ rest)) acc = _
      simp only [splitOnAuxF]
      rw [if_neg (by simpa using h0)]
      have h' : ∀ i, i < xs.length →
          ¬ (s0 :: stl).isPrefixOf ((xs ++ (s0 :: stl) ++ rest).drop i) = true := by
        intro i hi
        have := h (i + 1) (by simp; omega)
        simpa [List.cons_append, List.drop_succ_cons] using this
      have hf' : (xs ++ (s0 :: stl) ++ rest).length ≤ f := by simp at hf ⊢; omega
      rw [ih rest (acc ++ [x]) f hf' h']
      simp

/-- Splitting a list without any separator occurrence yields one piece. -/
theorem splitOnAuxF_noOccur (s0 : Char) (stl : Str) :
    ∀ (xs acc : Str) (f : Nat), xs.length ≤ f →
      (∀ i, i < xs.length → ¬ (s0 :: stl).isPrefixOf (xs.drop i) = true) →
      splitOnAuxF s0 stl f xs acc = [acc ++ xs] := by
  intro xs
  induction xs with
  | nil =>
    intro acc f _ _
    cases f with
    | zero => rfl
    | succ f => simp [splitOnAuxF]
  | cons x xs ih =>
    intro acc f hf h
    cases f with
    | zero => simp at hf
    | succ f =>
      have h0 := h 0 (by simp)
      simp only [List.drop_zero] at h0
      simp only [splitOnAuxF]
      rw [if_neg (by simpa using h0)]
      have h' : ∀ i, i < xs.length → ¬ (s0 :: stl).isPrefixOf (xs.drop i) = true := by
        intro i hi
        have := h (i + 1) (by simp; omega)
        simpa [List.drop_succ_cons] using this
      rw [ih (acc ++ [x]) f (by simp at hf; omega) h']
      simp

theorem pySplit_append {s0 : Char} {stl : Str} (xs rest : Str)
    (h : ∀ i, i < xs.length → ¬ (s0 :: stl).isPrefixOf ((xs ++ (s0 :: stl)).drop i) = true) :
    pySplit (s0 :: stl) (xs ++ (s0 :: stl) ++ rest) = xs :: pySplit (s0 :: stl) rest := by
  show splitOnAuxF s0 stl (xs ++ (s0 :: stl) ++ rest).length (xs ++ (s0 :: stl) ++ rest) [] =
    xs :: splitOnAuxF s0 stl rest.length rest []
  rw [splitOnAuxF_append s0 stl xs rest [] _ (le_refl _)
    (fun i hi hp => h i hi (isPrefixOf_drop_append_of_lt hi hp))]
  simp

theorem pySplit_noOccur {s0 : Char} {stl : Str} (xs : Str)
    (h : ∀ i, i < xs.length → ¬ (s0 :: stl).isPrefixOf (xs.drop i) = true) :
    pySplit (s0 :: stl) xs = [xs] := by
  show splitOnAuxF s0 stl xs.length xs [] = [xs]
  rw [splitOnAuxF_noOccur s0 stl xs [] _ (le_refl _) h]
  simp

/-- First-occurrence characterisation of the find worker at a junction. -/
theorem findSubAux_append (s0 : Char) (stl : Str) :
    ∀ (pre rest : Str) (j : Nat),
      (∀ i, i < pre.length → ¬ (s0 :: stl).isPrefixOf ((pre ++ (s0 :: stl) ++ rest).drop i) = true) →
      findSubAux (s0 :: stl) (pre ++ (s0 :: stl) ++ rest) j = some (j + pre.length) := by
  intro pre
  induction pre with
  | nil =>
    intro rest j _
    simp only [List.nil_append]
    have hshape : (s0 :: stl) ++ rest = s0 :: (stl ++ rest) := rfl
    rw [hshape]
    simp only [findSubAux]
    rw [if_pos (show (s0 :: stl).isPrefixOf (s0 :: (stl ++ rest)) = true from isPrefixOf_append_self (s0 :: stl) rest)]
    simp
  | cons x pre ih =>
    intro rest j h
    have h0 := h 0 (by simp)
    simp only [List.cons_append, List.drop_zero] at h0
    show findSubAux (s0 :: stl) (x :: (pre ++ (s0 :: stl) ++ rest)) j = _
    simp only [findSubAux]
    rw [if_neg (by simpa using h0)]
    have h' : ∀ i, i < pre.length →
        ¬ (s0 :: stl).isPrefixOf ((pre ++ (s0 :: stl) ++ rest).drop i) = true := by
      intro i hi
      have := h (i + 1) (by simp; omega)
      simpa [List.cons_append, List.drop_succ_cons] using this
    rw [ih rest (j + 1) h']
    simp only [List.length_cons]
    congr 1
    omega

/-- No window starting inside `P` matches a pattern whose first character
does not occur in `P`. -/
theorem not_isPrefixOf_of_head_notMem {c0 : Char} {sub P t : Str} (hc : c0 ∉ P) :
    ∀ i, i < P.length → ¬ ((c0 :: sub).isPrefixOf ((P ++ t).drop i)) = true := by
  intro i hi hpre
  rw [List.isPrefixOf_iff_prefix] at hpre
  have hlen : i < (P ++ t).length := by simp; omega
  rw [List.drop_eq_getElem_cons hlen] at hpre
  obtain ⟨r, hr⟩ := hpre
  rw [List.cons_append] at hr
  injection hr with hhead htail
  have hPi : (P ++ t)[i] = P[i] := List.getElem_append_left hi
  exact hc (hhead ▸ hPi ▸ List.getElem_mem hi)

theorem not_isPrefixOf_of_short {sub l : Str} (h : l.length < sub.length) :
    ¬ (sub.isPrefixOf l) = true := by
  intro hp
  rw [List.isPrefixOf_iff_prefix] at hp
  exact absurd hp.length_le (by omega)

end Lemmas

/-- A well-formed path segment: non-empty, not a dot segment, and free of
separators and CR/LF bytes. -/
def GoodSeg (s : Str) : Prop :=
  s ≠ [] ∧ s ≠ strLit "." ∧ s ≠ dotdot ∧ '/' ∉ s ∧ '\r' ∉ s ∧ '\n' ∉ s

instance (s : Str) : Decidable (GoodSeg s) := by
  unfold GoodSeg
  infer_instance

section PathLemmas

theorem renderRel_notMem {c : Char} (hc : c ≠ '/') (segs : List Str)
    (h : ∀ s ∈ segs, c ∉ s) : c ∉ renderRel segs := by
  cases segs with
  | nil => simp [renderRel]
  | cons s rest =>
    simp only [renderRel]
    intro hmem
    rcases List.mem_append.mp hmem with hs | hf
    · exact h s (List.mem_cons_self s rest) hs
    · obtain ⟨t, ht, hct⟩ := List.mem_flatMap.mp hf
      rcases List.mem_cons.mp hct with h1 | h2
      · exact hc h1
      · exact h t (List.mem_cons_of_mem s ht) h2

theorem pySplit_slash_render (segs : List Str) (hne : segs ≠ [])
    (h : ∀ x ∈ segs, x ≠ [] ∧ '/' ∉ x) :
    pySplit [ '/' ] (renderRel segs) = segs := by
  induction segs with
  | nil => exact absurd rfl hne
  | cons s rest ih =>
    cases rest with
    | nil =>
      have hr : renderRel [s] = s := by simp [renderRel]
      rw [hr]
      apply pySplit_noOccur
      intro i hi
      have hs := (h s (List.mem_cons_self s [])).2
      have hns := @not_isPrefixOf_of_head_notMem '/' [] s [] hs i hi
      simpa using hns
    | cons r rest' =>
      have hshape : renderRel (s :: r :: rest') = s ++ [ '/' ] ++ renderRel (r :: rest') := by
        simp [renderRel, List.flatMap_cons, List.append_assoc]
      rw [hshape]
      have hs := h s (List.mem_cons_self s (r :: rest'))
      rw [pySplit_append]
      · rw [ih (by simp) (fun x hx => h x (List.mem_cons_of_mem s hx))]
      · intro i hi
        exact @not_isPrefixOf_of_head_notMem '/' [] s [ '/' ] hs.2 i hi

theorem parseRel_render (segs : List Str) (h : ∀ x ∈ segs, GoodSeg x) :
    parseRel (renderRel segs) = segs := by
  cases segs with
  | nil => decide
  | cons s rest =>
    unfold parseRel
    rw [pySplit_slash_render (s :: rest) (by simp)
      (fun x hx => ⟨(h x hx).1, (h x hx).2.2.2.1⟩)]
    rw [List.filter_eq_self.mpr]
    intro x hx
    obtain ⟨h1, h2, -⟩ := h x hx
    have e1 : (x == ([] : Str)) = false := beq_eq_false_iff_ne.mpr h1
    have e2 : (x == [ '.' ]) = false := beq_eq_false_iff_ne.mpr h2
    simp [e1, e2]

theorem lstripSlash_render (segs : List Str) (h : ∀ x ∈ segs, GoodSeg x) :
    lstripSlash (renderRel segs) = renderRel segs := by
  cases segs with
  | nil => rfl
  | cons s rest =>
    obtain ⟨h1, -, -, h4, -⟩ := h s (List.mem_cons_self s rest)
    cases s with
    | nil => exact absurd rfl h1
    | cons c s' =>
      have hc : (c == '/') = false := by
        rw [beq_eq_false_iff_ne]
        intro hcc
        exact h4 (hcc ▸ List.mem_cons_self c s')
      show List.dropWhile _ (c :: (s' ++ _)) = _
      rw [List.dropWhile_cons]
      simp [hc, renderRel]

theorem renderAbs_isPrefixOf (xs ys : List Str) (hne : xs ≠ []) :
    (renderAbs xs).isPrefixOf (renderAbs (xs ++ ys)) = true := by
  unfold renderAbs
  have h1 : (xs == ([] : List Str)) = false := beq_eq_false_iff_ne.mpr hne
  have h2 : ((xs ++ ys) == ([] : List Str)) = false := by
    rw [beq_eq_false_iff_ne]
    intro hxy
    exact hne (List.append_eq_nil.mp hxy).1
  simp [h1, h2, List.flatMap_append, isPrefixOf_append_self]

/-- Path resolution of a rendered well-formed relative path against the
concrete configuration: the result is the root extended by the segments. -/
theorem getFullPath_good (segs : List Str) (h : ∀ x ∈ segs, GoodSeg x) :
    getFullPath cfg0 (renderRel segs) = .ok (root0 ++ segs) := by
  show (if (renderAbs (rootResolved cfg0)).isPrefixOf
        (renderAbs (normalize (cfg0.cwd ++ parseRel DATA_DIR ++ parseRel (lstripSlash (renderRel segs))))) then
      Except.ok (normalize (cfg0.cwd ++ parseRel DATA_DIR ++ parseRel (lstripSlash (renderRel segs))))
    else Except.error PyErr.valueError) = .ok (root0 ++ segs)
  rw [lstripSlash_render segs h, parseRel_render segs h]
  have hnorm : normalize (cfg0.cwd ++ parseRel DATA_DIR ++ segs) = root0 ++ segs := by
    rw [show cfg0.cwd ++ parseRel DATA_DIR = root0 from by decide]
    apply normalize_no_dotdot
    intro x hx
    rcases List.mem_append.mp hx with h1 | h2
    · have hr : ∀ x ∈ root0, x ≠ dotdot := by decide
      exact hr x h1
    · exact (h x h2).2.2.1
  rw [hnorm]
  have hroot : rootResolved cfg0 = root0 := by decide
  rw [hroot]
  rw [if_pos (renderAbs_isPrefixOf root0 segs (by decide))]

end PathLemmas

section MultipartLemmas

/-- The header region of the `path` part produced by the encoder. -/
def cdPathHdr : Str := crlf ++ strLit "Content-Disposition: form-data; name=\"path\""

/-- The header region of the `file` part for the filename `a.txt`. -/
def cdFileHdrA : Str :=
  crlf ++ strLit "Content-Disposition: form-data; name=\"file\"; filename=\"" ++
    strLit "a.txt" ++ strLit "\""

theorem pathPart_eq (p : Str) :
    pathPart p = cdPathHdr ++ (crlf ++ crlf) ++ (p ++ crlf) := by
  simp [pathPart, cdPathHdr, List.append_assoc]

theorem filePart_a_eq (content : Str) :
    filePart (strLit "a.txt") content = cdFileHdrA ++ (crlf ++ crlf) ++ (content ++ crlf) := by
  simp [filePart, cdFileHdrA, List.append_assoc]

theorem processPart_empty (acc : PartsAcc) : processPart acc [] = .ok acc := by
  have h : containsSub (strLit "Content-Disposition") [] = false := by decide
  simp [processPart, h]

theorem processPart_closing (acc : PartsAcc) :
    processPart acc (strLit "--" ++ crlf) = .ok acc := by
  have h : containsSub (strLit "Content-Disposition") (strLit "--" ++ crlf) = false := by decide
  simp [processPart, h]

theorem processPart_pathPart (acc : PartsAcc) (P : Str) (hcr : '\r' ∉ P) :
    processPart acc (pathPart P) = .ok { acc with uploadPath := P } := by
  have hCD : containsSub (strLit "Content-Disposition") (pathPart P) = true := by
    rw [pathPart_eq]
    exact containsSub_mono _ (by decide)
  have hNP : containsSub (strLit "name=\"path\"") (pathPart P) = true := by
    rw [pathPart_eq]
    exact containsSub_mono _ (by decide)
  have hsplit : pySplit (crlf ++ crlf) (pathPart P) = [cdPathHdr, P ++ crlf] := by
    rw [pathPart_eq]
    rw [show crlf ++ crlf = '\r' :: strLit "\n\r\n" from rfl]
    rw [pySplit_append]
    · congr 1
      apply pySplit_noOccur
      intro i hi
      by_cases hip : i < P.length
      · exact not_isPrefixOf_of_head_notMem hcr i hip
      · apply not_isPrefixOf_of_short
        have hlen : (P ++ crlf).length = P.length + 2 := by
          simp [List.length_append]
          decide
        simp only [List.length_drop, hlen]
        have hst : (strLit "\n\r\n").length = 3 := by decide
        simp only [List.length_cons, hst]
        omega
    · decide
  have hsplit2 : pySplit crlf (P ++ crlf) = [P, []] := by
    rw [show (P ++ crlf : Str) = P ++ crlf ++ [] from by simp]
    rw [show (crlf : Str) = '\r' :: strLit "\n" from rfl]
    rw [pySplit_append]
    · rfl
    · intro i hi
      exact not_isPrefixOf_of_head_notMem hcr i hi
  simp [processPart, hCD, hNP, hsplit, hsplit2]

theorem processPart_filePart (acc : PartsAcc) (content : Str)
    (hnp : containsSub (strLit "name=\"path\"") (filePart (strLit "a.txt") content) = false) :
    processPart acc (filePart (strLit "a.txt") content) =
      .ok { acc with fileData := some content, filename := some (strLit "a.txt") } := by
  have hCD : containsSub (strLit "Content-Disposition") (filePart (strLit "a.txt") content) = true := by
    rw [filePart_a_eq]
    exact containsSub_mono _ (by decide)
  have hNF : containsSub (strLit "name=\"file\"") (filePart (strLit "a.txt") content) = true := by
    rw [filePart_a_eq]
    exact containsSub_mono _ (by decide)
  have hjunc : ∀ i, i < cdFileHdrA.length →
      ¬ (('\r' :: strLit "\n\r\n").isPrefixOf ((cdFileHdrA ++ ('\r' :: strLit "\n\r\n")).drop i)) = true := by
    decide
  have hfind : pyFind (crlf ++ crlf) (filePart (strLit "a.txt") content) = (cdFileHdrA.length : Int) := by
    rw [filePart_a_eq]
    unfold pyFind
    rw [show crlf ++ crlf = '\r' :: strLit "\n\r\n" from rfl]
    rw [findSubAux_append '\r' (strLit "\n\r\n") cdFileHdrA (content ++ crlf) 0
      (fun i hi hp => hjunc i hi (isPrefixOf_drop_append_of_lt hi hp))]
    simp
  have hlen4 : (crlf ++ crlf).length = 4 := by decide
  have hlen2 : (crlf : Str).length = 2 := by decide
  have hslice1 : pySliceFrom (filePart (strLit "a.txt") content) ((cdFileHdrA.length : Int) + 4) =
      content ++ crlf := by
    rw [filePart_a_eq]
    unfold pySliceFrom pyIdx
    rw [if_pos (by omega)]
    have ht1 : ((cdFileHdrA.length : Int) + 4).toNat = cdFileHdrA.length + 4 := by omega
    rw [ht1]
    have ht2 : min (cdFileHdrA.length + 4) (cdFileHdrA ++ (crlf ++ crlf) ++ (content ++ crlf)).length =
        cdFileHdrA.length + 4 := by
      apply Nat.min_eq_left
      simp [List.length_append, hlen4]
      omega
    rw [ht2]
    rw [show cdFileHdrA.length + 4 = (cdFileHdrA ++ (crlf ++ crlf)).length from by
      simp [List.length_append, hlen4]]
    exact List.drop_left _ _
  have hsuffix : crlf.isSuffixOf (content ++ crlf) = true :=
    List.isSuffixOf_iff_suffix.mpr (List.suffix_append _ _)
  have htrim : (content ++ crlf).take ((content ++ crlf).length - 2) = content := by
    have hl : (content ++ crlf).length - 2 = content.length := by
      simp [List.length_append, hlen2]
    rw [hl]
    exact List.take_left _ _
  have hto : pySliceTo (filePart (strLit "a.txt") content) (cdFileHdrA.length : Int) = cdFileHdrA := by
    rw [filePart_a_eq]
    unfold pySliceTo pyIdx
    rw [if_pos (by omega)]
    have ht1 : ((cdFileHdrA.length : Int)).toNat = cdFileHdrA.length := by omega
    rw [ht1]
    have ht2 : min cdFileHdrA.length (cdFileHdrA ++ (crlf ++ crlf) ++ (content ++ crlf)).length =
        cdFileHdrA.length := by
      apply Nat.min_eq_left
      simp [List.length_append]
    rw [ht2]
    rw [List.take_append_of_le_length (by simp [List.length_append])]
    rw [List.take_append_of_le_length (le_refl _)]
    exact List.take_length ..
  have hfn : pySlice cdFileHdrA (pyFind (strLit "filename=\"") cdFileHdrA + 10)
      (pyFindFrom (strLit "\"") cdFileHdrA (pyFind (strLit "filename=\"") cdFileHdrA + 10)) =
      strLit "a.txt" := by decide
  simp only [processPart, hCD, hnp, hNF, Bool.false_eq_true, if_true, if_false, hfind,
    hslice1, hsuffix, htrim, hto, hfn]

theorem foldParts_cons_ok {acc acc2 : PartsAcc} {p : Str} {rest : List Str}
    (h : processPart acc p = .ok acc2) :
    foldParts acc (p :: rest) = foldParts acc2 rest := by
  conv_lhs => rw [foldParts]
  rw [h]

/-- Splitting the encoded body on `--boundary` yields exactly the empty
lead piece, the two parts, and the closing `--\r\n`. -/
theorem encode_split (P content : Str)
    (h1 : ∀ i, i < (pathPart P).length →
      ¬ (strLit "--" ++ bnd).isPrefixOf ((pathPart P ++ (strLit "--" ++ bnd)).drop i) = true)
    (h2 : ∀ i, i < (filePart (strLit "a.txt") content).length →
      ¬ (strLit "--" ++ bnd).isPrefixOf
        ((filePart (strLit "a.txt") content ++ (strLit "--" ++ bnd)).drop i) = true) :
    pySplit (strLit "--" ++ bnd) (encodeMultipart bnd P (strLit "a.txt") content) =
      [[], pathPart P, filePart (strLit "a.txt") content, strLit "--" ++ crlf] := by
  have hshape : encodeMultipart bnd P (strLit "a.txt") content =
      [] ++ (strLit "--" ++ bnd) ++
        (pathPart P ++ (strLit "--" ++ bnd) ++
          (filePart (strLit "a.txt") content ++ (strLit "--" ++ bnd) ++ (strLit "--" ++ crlf))) := by
    simp [encodeMultipart, List.append_assoc]
  rw [hshape]
  rw [show strLit "--" ++ bnd = '-' :: strLit "-XBOUND" from by decide]
  have h1' : ∀ i, i < (pathPart P).length →
      ¬ (('-' :: strLit "-XBOUND").isPrefixOf
        ((pathPart P ++ ('-' :: strLit "-XBOUND")).drop i)) = true := h1
  have h2' : ∀ i, i < (filePart (strLit "a.txt") content).length →
      ¬ (('-' :: strLit "-XBOUND").isPrefixOf
        ((filePart (strLit "a.txt") content ++ ('-' :: strLit "-XBOUND")).drop i)) = true := h2
  rw [pySplit_append ([] : Str) _ (by intro i hi; simp at hi)]
  rw [pySplit_append _ _ h1']
  rw [pySplit_append _ _ h2']
  rw [pySplit_noOccur _ (by decide)]

theorem foldParts_encode (P content : Str) (hcr : '\r' ∉ P)
    (h1 : ∀ i, i < (pathPart P).length →
      ¬ (strLit "--" ++ bnd).isPrefixOf ((pathPart P ++ (strLit "--" ++ bnd)).drop i) = true)
    (h2 : ∀ i, i < (filePart (strLit "a.txt") content).length →
      ¬ (strLit "--" ++ bnd).isPrefixOf
        ((filePart (strLit "a.txt") content ++ (strLit "--" ++ bnd)).drop i) = true)
    (hnp : containsSub (strLit "name=\"path\"") (filePart (strLit "a.txt") content) = false) :
    foldParts ⟨[], none, none⟩
        (pySplit (strLit "--" ++ bnd) (encodeMultipart bnd P (strLit "a.txt") content)) =
      .ok ⟨P, some content, some (strLit "a.txt")⟩ := by
  rw [encode_split P content h1 h2]
  rw [foldParts_cons_ok (processPart_empty _)]
  rw [foldParts_cons_ok (processPart_pathPart _ P hcr)]
  rw [foldParts_cons_ok (processPart_filePart _ content hnp)]
  rw [foldParts_cons_ok (processPart_closing _)]
  rfl

end MultipartLemmas

/-- Claim C4 (amended): for every well-formed destination directory and
every NON-EMPTY file content whose bytes contain neither the boundary
delimiter `--XBOUND` (hypotheses `h1`/`h2`: the delimiter does not occur
anywhere inside either encoded part, boundary-straddling windows
included) nor the control token `name="path"` (hypothesis `hnp`) — i.e.
any conforming multipart encoding — uploading the file `a.txt` there and
downloading it back by its resulting relative path returns byte-identical
content: the parser's trailing-CRLF trimming removes exactly the protocol
delimiter and no payload bytes. -/
theorem c4_roundtrip (segs : List Str) (content : Str)
    (hg : ∀ x ∈ segs, GoodSeg x)
    (hc : content ≠ [])
    (h1 : ∀ i, i < (pathPart (renderRel segs)).length →
      ¬ (strLit "--" ++ bnd).isPrefixOf
        ((pathPart (renderRel segs) ++ (strLit "--" ++ bnd)).drop i) = true)
    (h2 : ∀ i, i < (filePart (strLit "a.txt") content).length →
      ¬ (strLit "--" ++ bnd).isPrefixOf
        ((filePart (strLit "a.txt") content ++ (strLit "--" ++ bnd)).drop i) = true)
    (hnp : containsSub (strLit "name=\"path\"") (filePart (strLit "a.txt") content) = false) :
    (uploadFile cfg0 fs0 (uploadContentType bnd)
        (encodeMultipart bnd (renderRel segs) (strLit "a.txt") content)).fst = .success ∧
    downloadFile cfg0
        (uploadFile cfg0 fs0 (uploadContentType bnd)
          (encodeMultipart bnd (renderRel segs) (strLit "a.txt") content)).snd
        (renderRel (segs ++ [strLit "a.txt"])) = .ok content := by
  have hcr : '\r' ∉ renderRel segs :=
    renderRel_notMem (by decide) segs (fun s hs => (hg s hs).2.2.2.2.1)
  have hct : containsSub (strLit "multipart/form-data") (uploadContentType bnd) = true := by decide
  have hbd : extractBoundary (uploadContentType bnd) = some bnd := by decide
  have hfold := foldParts_encode (renderRel segs) content hcr h1 h2 hnp
  have hres : getFullPath cfg0 (renderRel segs) = .ok (root0 ++ segs) := getFullPath_good segs hg
  have hroot2 : root0.length = 2 := by decide
  have hcond : ((root0 ++ segs).inits.any fun q => fs0.isFile q) = false := by
    rw [List.any_eq_false]
    intro q _
    simp [FS.isFile, FS.getFile, fs0]
  have hmk : mkdirParents fs0 (root0 ++ segs) = .ok (insertDirs fs0 (root0 ++ segs).inits) := by
    unfold mkdirParents
    simp only [hcond, Bool.false_eq_true, if_false]
  have hjoin : pathJoin (root0 ++ segs) (strLit "a.txt") = root0 ++ segs ++ [strLit "a.txt"] := by
    unfold pathJoin
    rw [if_neg (by decide)]
    rw [show parseRel (strLit "a.txt") = [strLit "a.txt"] from by decide]
  have hnormf : normalize (root0 ++ segs ++ [strLit "a.txt"]) = root0 ++ segs ++ [strLit "a.txt"] := by
    apply normalize_no_dotdot
    intro x hx
    rcases List.mem_append.mp hx with hx1 | hx2
    · rcases List.mem_append.mp hx1 with hx3 | hx4
      · have hr : ∀ y ∈ root0, y ≠ dotdot := by decide
        exact hr x hx3
      · exact (hg x hx4).2.2.1
    · have hx3 : x = strLit "a.txt" := by simpa using hx2
      subst hx3
      decide
  have hfiles1 : (insertDirs fs0 (root0 ++ segs).inits).files = [] := by
    rw [insertDirs_files]
    rfl
  have hnd : (insertDirs fs0 (root0 ++ segs).inits).isDir (root0 ++ segs ++ [strLit "a.txt"]) = false := by
    rw [Bool.eq_false_iff]
    intro hcon
    have hm : (root0 ++ segs ++ [strLit "a.txt"]) ∈ (insertDirs fs0 (root0 ++ segs).inits).dirs := by
      simpa [FS.isDir] using hcon
    have hlen : (root0 ++ segs ++ [strLit "a.txt"]).length = segs.length + 3 := by
      simp only [List.length_append, hroot2, List.length_cons, List.length_nil]
      omega
    rw [mem_insertDirs_dirs] at hm
    rcases hm with hm | hm
    · have hd0 : fs0.dirs = [[], [strLit "home"], root0] := rfl
      rw [hd0] at hm
      simp only [List.mem_cons, List.mem_singleton, List.not_mem_nil] at hm
      rcases hm with hm | hm | hm | hm
      · rw [hm] at hlen
        simp at hlen
      · rw [hm] at hlen
        simp at hlen
      · rw [hm] at hlen
        rw [hroot2] at hlen
        omega
      · exact hm
    · have hle := ((List.mem_inits _ _).mp hm).length_le
      rw [hlen] at hle
      simp only [List.length_append, hroot2] at hle
      omega
  have hpd : (insertDirs fs0 (root0 ++ segs).inits).isDir (root0 ++ segs) = true := by
    have hm : (root0 ++ segs) ∈ (insertDirs fs0 (root0 ++ segs).inits).dirs :=
      (mem_insertDirs_dirs _ _ _).mpr (Or.inr ((List.mem_inits _ _).mpr List.prefix_rfl))
    simpa [FS.isDir] using hm
  have hw : writeFile (insertDirs fs0 (root0 ++ segs).inits) (root0 ++ segs ++ [strLit "a.txt"]) content =
      .ok { dirs := (insertDirs fs0 (root0 ++ segs).inits).dirs,
            files := [(root0 ++ segs ++ [strLit "a.txt"], content)] } := by
    unfold writeFile
    simp only [hnd, Bool.false_eq_true, if_false]
    rw [List.dropLast_concat]
    simp only [hpd, Bool.not_true, Bool.false_eq_true, if_false]
    rw [hfiles1]
    rfl
  have htr : truthy (some content) = true := by
    show (!(content == [])) = true
    rw [beq_eq_false_iff_ne.mpr hc]
    rfl
  have hup : uploadFile cfg0 fs0 (uploadContentType bnd)
      (encodeMultipart bnd (renderRel segs) (strLit "a.txt") content) =
      (.success, { dirs := (insertDirs fs0 (root0 ++ segs).inits).dirs,
                   files := [(root0 ++ segs ++ [strLit "a.txt"], content)] }) := by
    unfold uploadFile
    simp only [hct, Bool.not_true, Bool.false_eq_true, if_false, hbd, hfold]
    simp only [htr, show truthy (some (strLit "a.txt")) = true from by decide, Bool.and_self,
      if_true]
    simp only [hres, hmk, Option.getD_some, hjoin, hnormf, hw]
  refine ⟨by rw [hup], ?_⟩
  rw [hup]
  show downloadFile cfg0
      { dirs := (insertDirs fs0 (root0 ++ segs).inits).dirs,
        files := [(root0 ++ segs ++ [strLit "a.txt"], content)] }
      (renderRel (segs ++ [strLit "a.txt"])) = .ok content
  have hga : ∀ x ∈ segs ++ [strLit "a.txt"], GoodSeg x := by
    intro x hx
    rcases List.mem_append.mp hx with hx1 | hx2
    · exact hg x hx1
    · have hx3 : x = strLit "a.txt" := by simpa using hx2
      subst hx3
      decide
  have hres2 : getFullPath cfg0 (renderRel (segs ++ [strLit "a.txt"])) =
      .ok (root0 ++ (segs ++ [strLit "a.txt"])) := getFullPath_good _ hga
  rw [← List.append_assoc] at hres2
  have hgf : FS.getFile
      { dirs := (insertDirs fs0 (root0 ++ segs).inits).dirs,
        files := [(root0 ++ segs ++ [strLit "a.txt"], content)] }
      (root0 ++ segs ++ [strLit "a.txt"]) = some content := by
    unfold FS.getFile
    simp
  unfold downloadFile
  simp only [hres2]
  simp only [FS.existsPath, FS.isFile, hgf, Option.isSome_some, Bool.or_true, Bool.not_true,
    Bool.or_self, Bool.false_eq_true, if_false, Option.getD_some]

/-- Witness for the amended C4: upload `hello` as `docs/a.txt` and read it
back unchanged. -/
theorem c4_roundtrip_witness :
    (uploadFile cfg0 fs0 (uploadContentType bnd)
        (encodeMultipart bnd (renderRel [strLit "docs"]) (strLit "a.txt") (strLit "hello"))).fst =
      .success ∧
    downloadFile cfg0
        (uploadFile cfg0 fs0 (uploadContentType bnd)
          (encodeMultipart bnd (renderRel [strLit "docs"]) (strLit "a.txt") (strLit "hello"))).snd
        (renderRel ([strLit "docs"] ++ [strLit "a.txt"])) = .ok (strLit "hello") :=
  c4_roundtrip [strLit "docs"] (strLit "hello") (by decide) (by decide) (by decide) (by decide)
    (by decide)

/-- Claim C8: resolving the empty relative path returns the canonical
storage root itself and does not fail. -/
theorem c8_resolve_empty (cfg : Config) (h : ∀ s ∈ cfg.cwd, s ≠ dotdot) :
    getFullPath cfg (strLit "") = .ok (rootResolved cfg) := by
  have hpr : parseRel (lstripSlash (strLit "")) = [] := by decide
  have hdd : parseRel DATA_DIR = [strLit "rydrive_data"] := by decide
  have hnorm : normalize (cfg.cwd ++ parseRel DATA_DIR) = cfg.cwd ++ parseRel DATA_DIR := by
    apply normalize_no_dotdot
    intro s hs
    rcases List.mem_append.mp hs with h1 | h2
    · exact h s h1
    · rw [hdd] at h2
      simp only [List.mem_singleton] at h2
      subst h2
      decide
  simp only [getFullPath, hpr, List.append_nil, rootResolved]
  rw [if_pos]
  exact List.isPrefixOf_iff_prefix.mpr List.prefix_rfl

/-- Witness for C8 at a concrete working directory. -/
theorem c8_resolve_empty_witness :
    getFullPath ⟨[strLit "home"]⟩ (strLit "") = .ok (rootResolved ⟨[strLit "home"]⟩) :=
  c8_resolve_empty ⟨[strLit "home"]⟩ (by decide)

/-- Claim C1 (code bug): with the working directory `/home` (storage root
`/home/rydrive_data`), the client path `../rydrive_data2/secret` resolves to
`/home/rydrive_data2/secret`.  That string starts with the string
`/home/rydrive_data`, so the `startswith` containment test passes and the
path is returned — yet the root is not a segment-wise prefix of it, so the
result lies outside the storage root. -/
theorem c1_prefix_check_escape :
    getFullPath ⟨[strLit "home"]⟩ (strLit "../rydrive_data2/secret") =
      .ok [strLit "home", strLit "rydrive_data2", strLit "secret"] ∧
    ¬ underRoot (rootResolved ⟨[strLit "home"]⟩)
      [strLit "home", strLit "rydrive_data2", strLit "secret"] := by
  constructor
  · decide
  · decide

/-- Claim C10: a mkdir request whose JSON `name` field is missing or empty
(`data.get("name", "")` yields `""`) raises `ValueError("Folder name
required")` before anything touches the tree; the handler catches it and
answers 500 with a JSON error object, leaving the storage tree unchanged. -/
theorem c10_mkdir_empty_name (cfg : Config) (fs : FS) (path : Str) :
    createFolder cfg fs path (strLit "") = (.err500, fs) := rfl

/-- The root containing a single subdirectory `docs`. -/
def fs5 : FS := ⟨[[], [strLit "home"], root0, root0 ++ [strLit "docs"]], []⟩

/-- Claim C5 (code bug): listing the storage root when it contains one
subdirectory `docs` produces a 500 error response instead of a sorted
listing: `item.relative_to(Path(DATA_DIR))` compares the absolute item
path against the *relative* path `rydrive_data`, which raises `ValueError`
for every entry, so listing any non-empty directory fails. -/
theorem c5_list_nonempty_error : listFiles cfg0 fs5 (strLit "") = .err500 := by decide

/-- Claim C2 (code bug): an upload whose file part carries the filename
`../evil.txt` succeeds (200) and writes the file at `/home/evil.txt`,
outside the storage root: the client filename is joined verbatim onto the
destination directory with no sanitisation. -/
theorem c2_filename_traversal_write :
    uploadFile cfg0 fs0 (uploadContentType bnd)
        (encodeMultipart bnd (strLit "") (strLit "../evil.txt") (strLit "EVIL")) =
      (.success, ⟨fs0.dirs, [([strLit "home", strLit "evil.txt"], strLit "EVIL")]⟩) ∧
    ¬ underRoot root0 [strLit "home", strLit "evil.txt"] := by
  constructor
  · decide
  · decide

/-- Claim C3 counterexample: (1) a multipart Content-Type without a
`boundary` parameter makes `content_type.split("boundary=")[1]` raise an
uncaught `IndexError` — no HTTP response at all, not a 400; (2) a body
truncated before the closing delimiter, which still contains a complete
file-part header, is written to disk with a 200 response rather than
being rejected. -/
theorem c3_counterexample :
    (uploadFile cfg0 fs0 (strLit "multipart/form-data") (strLit "irrelevant")).fst = .crash ∧
    uploadFile cfg0 fs0 (uploadContentType bnd)
        (strLit "--XBOUND\r\nContent-Disposition: form-data; name=\"file\"; filename=\"t.txt\"\r\n\r\nPARTIAL") =
      (.success, ⟨fs0.dirs, [(root0 ++ [strLit "t.txt"], strLit "PARTIAL")]⟩) := by
  constructor
  · decide
  · decide

/-- Claim C4 counterexample: uploading an empty file — a legal "arbitrary
byte sequence" — is rejected with a bare 400, because
`if file_data and filename:` treats empty bytes as false; nothing is
written and downloading the would-be path returns 404, not byte-identical
content. -/
theorem c4_counterexample :
    uploadFile cfg0 fs0 (uploadContentType bnd)
        (encodeMultipart bnd (strLit "") (strLit "a.txt") (strLit "")) = (.bad400, fs0) ∧
    downloadFile cfg0 fs0 (strLit "a.txt") = .notFound404 := by
  constructor
  · decide
  · decide

/-- Claim C9: when the multipart parse succeeds but extracts an empty file
content, the success branch's truthiness test `if file_data and filename:`
fails, so the server answers with a bare 400 and writes no file (the
storage tree is returned unchanged). -/
theorem c9_empty_file_400 (cfg : Config) (fs : FS) (ct body b : Str) (acc : PartsAcc)
    (hct : containsSub (strLit "multipart/form-data") ct = true)
    (hb : extractBoundary ct = some b)
    (hp : foldParts ⟨[], none, none⟩ (pySplit (strLit "--" ++ b) body) = .ok acc)
    (hfd : acc.fileData = some []) :
    uploadFile cfg fs ct body = (.bad400, fs) := by
  simp [uploadFile, hct, hb, hp, hfd, truthy]

/-- Witness for C9: a concrete upload of an empty file named `b.bin`. -/
theorem c9_empty_file_400_witness :
    uploadFile cfg0 fs0 (uploadContentType bnd)
        (encodeMultipart bnd (strLit "docs") (strLit "b.bin") (strLit "")) = (.bad400, fs0) :=
  c9_empty_file_400 cfg0 fs0 (uploadContentType bnd)
    (encodeMultipart bnd (strLit "docs") (strLit "b.bin") (strLit ""))
    bnd ⟨strLit "docs", some [], some (strLit "b.bin")⟩
    (by decide) (by decide) (by decide) rfl

/-- Claim C3 (amended): when the multipart body parses without exception
and no part yields a file field (`file_data` stays `None`), `_upload_file`
answers with a bare 400 and writes nothing. -/
theorem c3_no_file_field_400 (cfg : Config) (fs : FS) (ct body b : Str) (acc : PartsAcc)
    (hct : containsSub (strLit "multipart/form-data") ct = true)
    (hb : extractBoundary ct = some b)
    (hp : foldParts ⟨[], none, none⟩ (pySplit (strLit "--" ++ b) body) = .ok acc)
    (hfd : acc.fileData = none) :
    uploadFile cfg fs ct body = (.bad400, fs) := by
  simp [uploadFile, hct, hb, hp, hfd, truthy]

/-- Witness for the amended C3: a body containing only a `path` field. -/
theorem c3_no_file_field_400_witness :
    uploadFile cfg0 fs0 (uploadContentType bnd)
        (strLit "--" ++ bnd ++ pathPart (strLit "docs") ++ strLit "--" ++ bnd ++ strLit "--" ++ crlf) =
      (.bad400, fs0) :=
  c3_no_file_field_400 cfg0 fs0 (uploadContentType bnd)
    (strLit "--" ++ bnd ++ pathPart (strLit "docs") ++ strLit "--" ++ bnd ++ strLit "--" ++ crlf)
    bnd ⟨strLit "docs", none, none⟩
    (by decide) (by decide) (by decide) rfl

/-- Claim C6: `_create_folder` is idempotent.  If a mkdir request succeeds
and produces the tree `fs1`, then repeating the same request on `fs1`
succeeds again and returns `fs1` unchanged (no duplicate directory), and
`fs1` contains the target directory together with every intermediate
ancestor (`mkdir(parents=True, exist_ok=True)`). -/
theorem c6_mkdir_idempotent (cfg : Config) (fs fs1 : FS) (p n : Str)
    (h : createFolder cfg fs p n = (.success, fs1)) :
    createFolder cfg fs1 p n = (.success, fs1) ∧
    ∃ t, createTarget cfg p n = some t ∧ ∀ q, q <+: t → q ∈ fs1.dirs := by
  by_cases hn : (n == []) = true
  · simp [createFolder, hn] at h
  · cases hgf : getFullPath cfg p with
    | error e => simp [createFolder, hn, hgf] at h
    | ok full =>
      cases hmk : mkdirParents fs (normalize (pathJoin full n)) with
      | error e => simp [createFolder, hn, hgf, hmk] at h
      | ok fs' =>
        have hfs1 : fs' = fs1 := by simpa [createFolder, hn, hgf, hmk] using h
        subst hfs1
        by_cases hcond : ((normalize (pathJoin full n)).inits.any fun q => fs.isFile q) = true
        · rw [show mkdirParents fs (normalize (pathJoin full n)) = .error .fileExists from by
            unfold mkdirParents; rw [if_pos hcond]] at hmk
          exact absurd hmk (by simp)
        · have hins : insertDirs fs (normalize (pathJoin full n)).inits = fs' := by
            have h2 := hmk
            unfold mkdirParents at h2
            rw [if_neg hcond] at h2
            exact Except.ok.inj h2
          constructor
          · have hfiles : fs'.files = fs.files := by
              rw [← hins]
              exact insertDirs_files _ fs
            have hcond2 : ((normalize (pathJoin full n)).inits.any fun q => fs'.isFile q) ≠ true := by
              intro hc
              apply hcond
              revert hc
              have hsame : ∀ q, fs'.isFile q = fs.isFile q := fun q => isFile_of_files_eq hfiles q
              simp only [List.any_eq_true]
              rintro ⟨q, hq, hfq⟩
              exact ⟨q, hq, by rw [← hsame q]; exact hfq⟩
            have hself : insertDirs fs' (normalize (pathJoin full n)).inits = fs' := by
              apply insertDirs_eq_self
              intro q hq
              rw [← hins]
              exact (mem_insertDirs_dirs _ fs q).mpr (Or.inr hq)
            have hmk3 : mkdirParents fs' (normalize (pathJoin full n)) = .ok fs' := by
              unfold mkdirParents
              rw [if_neg hcond2, hself]
            simp [createFolder, hn, hgf, hmk3]
          · refine ⟨normalize (pathJoin full n), ?_, ?_⟩
            · unfold createTarget
              rw [hgf]
            · intro q hq
              rw [← hins]
              exact (mem_insertDirs_dirs _ fs q).mpr (Or.inr ((List.mem_inits q _).mpr hq))

/-- The tree produced by a successful `mkdir docs` at the root. -/
def fs6 : FS := ⟨fs0.dirs ++ [root0 ++ [strLit "docs"]], []⟩

/-- Witness for C6: concretely create `docs` twice at the storage root. -/
theorem c6_mkdir_idempotent_witness :
    createFolder cfg0 fs6 (strLit "") (strLit "docs") = (.success, fs6) ∧
    ∃ t, createTarget cfg0 (strLit "") (strLit "docs") = some t ∧ ∀ q, q <+: t → q ∈ fs6.dirs :=
  c6_mkdir_idempotent cfg0 fs0 fs6 (strLit "") (strLit "docs") (by decide)

/-- Claim C7: deleting a path that fails resolution or does not exist
yields a 500 JSON error response with the storage tree unchanged (no
crash); deleting an existing directory removes it recursively with all
contents; deleting an existing file removes exactly that file. -/
theorem c7_delete_behavior (cfg : Config) (fs : FS) (p : Str) (full : List Str) :
    (getFullPath cfg p = .error .valueError → deleteItem cfg fs p = (.err500, fs)) ∧
    (getFullPath cfg p = .ok full →
      (fs.existsPath full = false → deleteItem cfg fs p = (.err500, fs)) ∧
      (fs.isDir full = true →
        (deleteItem cfg fs p).fst = .success ∧
        (∀ q, q ∈ (deleteItem cfg fs p).snd.dirs ↔ q ∈ fs.dirs ∧ ¬ full <+: q) ∧
        (∀ e, e ∈ (deleteItem cfg fs p).snd.files ↔ e ∈ fs.files ∧ ¬ full <+: e.fst)) ∧
      (fs.isDir full = false → fs.isFile full = true →
        (deleteItem cfg fs p).fst = .success ∧
        (deleteItem cfg fs p).snd.dirs = fs.dirs ∧
        (∀ q, (deleteItem cfg fs p).snd.getFile q =
          if q = full then none else fs.getFile q))) := by
  constructor
  · intro he
    simp [deleteItem, he]
  · intro hok
    refine ⟨?_, ?_, ?_⟩
    · intro hex
      have h12 := hex
      unfold FS.existsPath at h12
      rw [Bool.or_eq_false_iff] at h12
      simp [deleteItem, hok, h12.1, h12.2]
    · intro hd
      have hdel : deleteItem cfg fs p = (.success, removeTree fs full) := by
        simp [deleteItem, hok, hd]
      rw [hdel]
      refine ⟨rfl, ?_, ?_⟩
      · intro q
        simp [removeTree, List.mem_filter, List.isPrefixOf_iff_prefix, Bool.eq_false_iff]
      · intro e
        simp [removeTree, List.mem_filter, List.isPrefixOf_iff_prefix, Bool.eq_false_iff]
    · intro hd hf
      have hdel : deleteItem cfg fs p = (.success, unlinkFile fs full) := by
        simp [deleteItem, hok, hd, hf]
      rw [hdel]
      refine ⟨rfl, rfl, ?_⟩
      intro q
      by_cases hq : q = full
      · rw [if_pos hq]
        subst hq
        unfold unlinkFile FS.getFile
        have hfind : (fs.files.filter (fun e => !(e.fst == q))).find? (fun e => e.fst == q) = none := by
          rw [List.find?_eq_none]
          intro e he
          have hne := (List.mem_filter.mp he).2
          simp only [Bool.not_eq_eq_eq_not, Bool.not_true] at hne
          simp [hne]
        simp only at hfind ⊢
        rw [hfind]
        rfl
      · rw [if_neg hq]
        unfold unlinkFile FS.getFile
        simp only
        rw [find?_filter_keep full q hq]

/-- A tree with one subdirectory `docs` and one file `b.txt` at the root. -/
def fs7 : FS :=
  ⟨[[], [strLit "home"], root0, root0 ++ [strLit "docs"]],
   [(root0 ++ [strLit "b.txt"], strLit "Y")]⟩

/-- Witness for C7: a path that escapes, a missing path, an existing
directory and an existing file, all against a concrete tree. -/
theorem c7_delete_behavior_witness :
    deleteItem cfg0 fs7 (strLit "../x") = (.err500, fs7) ∧
    deleteItem cfg0 fs7 (strLit "nope") = (.err500, fs7) ∧
    (deleteItem cfg0 fs7 (strLit "docs")).fst = .success ∧
    (deleteItem cfg0 fs7 (strLit "b.txt")).fst = .success := by
  refine ⟨?_, ?_, ?_, ?_⟩
  · exact (c7_delete_behavior cfg0 fs7 (strLit "../x") []).1 (by decide)
  · exact ((c7_delete_behavior cfg0 fs7 (strLit "nope")
      (root0 ++ [strLit "nope"])).2 (by decide)).1 (by decide)
  · exact (((c7_delete_behavior cfg0 fs7 (strLit "docs")
      (root0 ++ [strLit "docs"])).2 (by decide)).2.1 (by decide)).1
  · exact (((c7_delete_behavior cfg0 fs7 (strLit "b.txt")
      (root0 ++ [strLit "b.txt"])).2 (by decide)).2.2 (by decide) (by decide)).1

end RyDrive
